import Mathlib

/-!
Verification of the streaming translation core of the gemini-cli-go proxy.

Strings of the Go program are modelled as lists: `Str := List Char` for the
wire-format parsing and message conversion layers (all compared strings are
byte-for-char faithful there), and `List Nat` (UTF-8 bytes) for the chunking
layer, where the Go code indexes raw bytes (`len`, slicing) and the inputs
contain multi-byte runes.  Wall-clock times are modelled as `Int` seconds.
Network calls (the HTTP send, the OAuth refresh exchange, JSON decoding of
upstream payloads) are oracles passed as function parameters.
-/

set_option linter.unusedVariables false

/-- Go strings at the character level. -/
abbrev Str := List Char

/-- Decidable equality for `Except`, needed to evaluate the oracle-based
definitions on concrete inputs. -/
instance instDecEqExcept {ε α : Type} [DecidableEq ε] [DecidableEq α] :
    DecidableEq (Except ε α) := fun a b =>
  match a, b with
  | .error e, .error f =>
    if h : e = f then .isTrue (congrArg Except.error h)
    else .isFalse (fun hc => h (Except.error.inj hc))
  | .ok x, .ok y =>
    if h : x = y then .isTrue (congrArg Except.ok h)
    else .isFalse (fun hc => h (Except.ok.inj hc))
  | .error _, .ok _ => .isFalse (fun hc => Except.noConfusion hc)
  | .ok _, .error _ => .isFalse (fun hc => Except.noConfusion hc)

/-- UTF-8 bytes of a pure-ASCII Lean string (each char is one byte). -/
def asciiBytes (s : String) : List Nat := s.toList.map Char.toNat

/-- Predicate `leadsWith p l` is true when `p` is a prefix of `l`
(models Go `strings.HasPrefix`). -/
def leadsWith {α : Type} [DecidableEq α] : List α → List α → Bool
  | [], _ => true
  | _ :: _, [] => false
  | a :: as, b :: bs => a = b && leadsWith as bs

/-- Join a list of strings with a separator (models Go `strings.Join`). -/
def joinWith (sep : Str) : List Str → Str
  | [] => []
  | [s] => s
  | s :: rest => s ++ sep ++ joinWith sep rest

/-! ## Data model: internal stream chunks (internal/types/types.go) -/

/-- Model of `types.StreamChunk`: the tagged internal event produced by the pipeline.
the dynamically typed Data field always carries a string (or `UsageData` / `ReasoningData`)
in the source, so the union is typed here.  In the spec's vocabulary,
`thinkingContent thinkingOpenTag` is the `ThinkingOpenMarker`,
`thinkingContent thinkingCloseTag` is the `ThinkingCloseMarker`,
`text` is `FinalText`, `reasoning`/`realThinking` are `ReasoningText`,
and `usage` is `Usage`. -/
inductive StreamChunk : Type
  | text (s : Str)
  | usage (inputTokens outputTokens : Int)
  | reasoning (s : Str)
  | thinkingContent (s : Str)
  | realThinking (s : Str)
  deriving DecidableEq, Repr

/-- Constant `constants.ThinkingOpenTag`. -/
def thinkingOpenTag : Str := "<thinking>\n".toList

/-- Constant `constants.ThinkingCloseTag`. -/
def thinkingCloseTag : Str := "\n</thinking>\n\n".toList

/-- The `ThinkingOpenMarker` chunk as the source emits it. -/
def openMarkerChunk : StreamChunk := .thinkingContent thinkingOpenTag

/-- The `ThinkingCloseMarker` chunk as the source emits it. -/
def closeMarkerChunk : StreamChunk := .thinkingContent thinkingCloseTag

/-- The fields of `gemini.StreamOptions` read by the streaming pipeline
(`processPart` only inspects `StreamThinkingAsContent`; the remaining
fields configure code outside the claims under verification). -/
structure StreamOptions : Type where
  streamThinkingAsContent : Bool
  deriving DecidableEq, Repr

/-- Model of `types.GeminiPart` as inspected by the streaming pipeline
(`Text` and `Thought`; the `InlineData`/`FileData` branches are only
written, never read, on this path). -/
structure GeminiPart : Type where
  text : Str
  thought : Bool
  deriving DecidableEq, Repr

/-- The two thinking-tracking booleans of `parseSSEStream`
(`hasStartedThinking`, `hasClosedThinking`), threaded by pointer through
`processSSEData` and `processPart` in the source. -/
structure ThinkState : Type where
  hasStartedThinking : Bool
  hasClosedThinking : Bool
  deriving DecidableEq, Repr

/-- The initial state of a streaming session: both flags false. -/
def initThinkState : ThinkState := ⟨false, false⟩

/-! ## Event classifier: `Client.processPart` (internal/gemini/client.go) -/

/-- Faithful translation of `Client.processPart`: classifies one upstream
part, emitting thinking tags / text chunks and updating the two booleans.
Returns the chunks sent to `chunkChan` in order, with the new state. -/
def processPart (options : Option StreamOptions) (st : ThinkState)
    (part : GeminiPart) : List StreamChunk × ThinkState :=
  if part.thought && part.text ≠ [] then
    if (options.map (·.streamThinkingAsContent)).getD false then
      if !st.hasStartedThinking then
        ([.thinkingContent thinkingOpenTag, .thinkingContent part.text],
         { st with hasStartedThinking := true })
      else
        ([.thinkingContent part.text], st)
    else
      ([.realThinking part.text], st)
  else if part.text ≠ [] && !part.thought then
    if st.hasStartedThinking && !st.hasClosedThinking then
      ([.thinkingContent thinkingCloseTag, .text part.text],
       { st with hasClosedThinking := true })
    else
      ([.text part.text], st)
  else
    ([], st)

/-- Sequential processing of a list of parts: the two nested loops of
`processSSEData` over `candidates` and `parts` run `processPart` on the
concatenation of all parts in order. -/
def processParts (options : Option StreamOptions) (st : ThinkState) :
    List GeminiPart → List StreamChunk × ThinkState
  | [] => ([], st)
  | p :: ps =>
    let r := processPart options st p
    let rest := processParts options r.2 ps
    (r.1 ++ rest.1, rest.2)

example :
    processParts (some ⟨true⟩) initThinkState
      [⟨"A".toList, true⟩, ⟨"B".toList, false⟩, ⟨"C".toList, true⟩] =
    ([.thinkingContent thinkingOpenTag, .thinkingContent "A".toList,
      .thinkingContent thinkingCloseTag, .text "B".toList,
      .thinkingContent "C".toList], ⟨true, true⟩) := by decide

/-! ## Decoded upstream events (`types.GeminiResponse`) -/

/-- Model of `types.GeminiUsageMetadata`. -/
structure GeminiUsageMetadata : Type where
  promptTokenCount : Int
  candidatesTokenCount : Int
  deriving DecidableEq, Repr

/-- Model of `types.GeminiCandidate`: `Content` is a nullable struct holding `Parts`. -/
structure GeminiCandidate : Type where
  content : Option (List GeminiPart)
  deriving DecidableEq, Repr

/-- The inner (non-null) `Response` object of `types.GeminiResponse`. -/
structure GeminiResponseBody : Type where
  candidates : List GeminiCandidate
  usageMetadata : Option GeminiUsageMetadata
  deriving DecidableEq, Repr

/-- Model of `types.GeminiResponse`: the JSON payload of one SSE event; the outer
`Response` field is nullable. -/
structure GeminiResponse : Type where
  response : Option GeminiResponseBody
  deriving DecidableEq, Repr

/-- All parts of a decoded event in processing order: the two nested loops
of `processSSEData` visit each candidate's parts sequentially (candidates
with null `Content` are skipped). -/
def responseParts (r : GeminiResponseBody) : List GeminiPart :=
  (r.candidates.map (fun c => c.content.getD [])).flatten

/-- The usage chunk(s) a decoded event contributes: one `usage` chunk if
`usageMetadata` is non-null, none otherwise. -/
def usageChunks : Option GeminiUsageMetadata → List StreamChunk
  | none => []
  | some u => [.usage u.promptTokenCount u.candidatesTokenCount]

/-! ## SSE payload processing: `Client.processSSEData` -/

/-- The `[DONE]` sentinel payload recognised by `processSSEData`. -/
def doneSentinel : Str := "[DONE]".toList

/-- Faithful translation of `Client.processSSEData`.  `decode` is the
`json.Unmarshal` oracle (the JSON decoder is external library code).
The `[DONE]` sentinel is discarded without decoding; a decode failure is a
hard error; a null `Response` contributes nothing; otherwise every part is
classified and a trailing usage chunk is appended when present. -/
def processSSEData (decode : Str → Except Str GeminiResponse)
    (options : Option StreamOptions) (data : Str) (st : ThinkState) :
    Except Str (List StreamChunk × ThinkState) :=
  if data = doneSentinel then .ok ([], st)
  else
    match decode data with
    | .error e => .error ("failed to parse SSE data: ".toList ++ e)
    | .ok resp =>
      match resp.response with
      | none => .ok ([], st)
      | some body =>
        let r := processParts options st (responseParts body)
        .ok (r.1 ++ usageChunks body.usageMetadata, r.2)

/-- Sequential processing of the complete payloads flushed by
`parseSSEStream`, short-circuiting on the first error (the source returns
the error from inside the scan loop). -/
def processPayloads (decode : Str → Except Str GeminiResponse)
    (options : Option StreamOptions) (st : ThinkState) :
    List Str → Except Str (List StreamChunk × ThinkState)
  | [] => .ok ([], st)
  | p :: ps =>
    match processSSEData decode options p st with
    | .error e => .error e
    | .ok (cs, st') =>
      match processPayloads decode options st' ps with
      | .error e => .error e
      | .ok (cs', st'') => .ok (cs ++ cs', st'')

/-! ## SSE frame parser: `Client.parseSSEStream` -/

/-- The `"data: "` line marker stripped by `parseSSEStream`. -/
def sseDataMark : Str := "data: ".toList

/-- Faithful translation of the line loop of `Client.parseSSEStream` over an
already line-split input (`bufio.Scanner` yields lines without newlines).
`buf` is the accumulating payload buffer: a blank line flushes a non-empty
buffer through `processSSEData`; a `"data: "` line is appended with the
marker stripped (`line[6:]`); other lines are ignored.  A buffer left
unflushed at end of input is discarded, as in the source. -/
def runSSE (decode : Str → Except Str GeminiResponse)
    (options : Option StreamOptions) (st : ThinkState) (buf : Str) :
    List Str → Except Str (List StreamChunk × ThinkState)
  | [] => .ok ([], st)
  | line :: rest =>
    if line = [] then
      if buf ≠ [] then
        match processSSEData decode options buf st with
        | .error e => .error e
        | .ok (cs, st') =>
          match runSSE decode options st' [] rest with
          | .error e => .error e
          | .ok (cs', st'') => .ok (cs ++ cs', st'')
      else runSSE decode options st buf rest
    else if leadsWith sseDataMark line then
      runSSE decode options st (buf ++ line.drop 6) rest
    else runSSE decode options st buf rest

/-- The wire encoding of a list of event payloads as a well-formed upstream
SSE stream: each payload on one `data: `-prefixed line followed by a blank
event-boundary line. -/
def encodeFrames (payloads : List Str) : List Str :=
  (payloads.map (fun p => [sseDataMark ++ p, []])).flatten

/-! ## Client-facing session trace -/

/-- One client-visible event of a streaming session: an internal chunk
forwarded by `handleStreamingResponse`, or the terminal `data: [DONE]`
sentinel written by `StreamWriter.WriteFinalChunk`. -/
inductive SessionEvent : Type
  | chunk (c : StreamChunk)
  | done
  deriving DecidableEq, Repr

/-- Model of `handleStreamingResponse`: forwards every chunk of the channel in order
and then writes exactly one final `[DONE]` sentinel. -/
def sessionTrace (chunks : List StreamChunk) : List SessionEvent :=
  chunks.map .chunk ++ [.done]

example :
    runSSE (fun s =>
        if s = "E1".toList then
          .ok ⟨some ⟨[⟨some [⟨"hi".toList, false⟩]⟩], none⟩⟩
        else .error "bad".toList)
      (some ⟨true⟩) initThinkState []
      (encodeFrames ["E1".toList, doneSentinel]) =
    .ok ([.text "hi".toList], initThinkState) := by rfl

/-! ## Downstream transformer: `stream.Transformer` / `stream.StreamWriter`
(internal/stream/transformer.go) -/

/-- One SSE frame written to the client, keyed by which delta field it
carries: the one-time role announcement (`CreateRoleChunk`), a content
delta, a reasoning delta, the usage/finish chunk, or the terminal
`data: [DONE]` frame (`CreateFinalChunk`). -/
inductive OutFrame : Type
  | roleFrame
  | contentDelta (s : Str)
  | reasoningDelta (s : Str)
  | usageFrame (promptTokens completionTokens : Int)
  | doneFrame
  deriving DecidableEq, Repr

/-- Model of `Transformer.Transform`: `text` and `thinkingContent` chunks become
content deltas; `reasoning` and `realThinking` chunks become reasoning
deltas; `usage` becomes the usage/finish chunk. -/
def transformChunk : StreamChunk → OutFrame
  | .text s => .contentDelta s
  | .reasoning s => .reasoningDelta s
  | .thinkingContent s => .contentDelta s
  | .realThinking s => .reasoningDelta s
  | .usage i o => .usageFrame i o

/-- Whether a chunk has type `StreamChunkTypeText`, the only type that
triggers the role chunk in `StreamWriter.WriteChunk`. -/
def isTextChunk : StreamChunk → Bool
  | .text _ => true
  | _ => false

/-- Faithful translation of `StreamWriter.WriteChunk`: if the session has
not started and the chunk's type is `text`, a role frame is written first
and `hasStarted` is set; then the transformed chunk is written. -/
def writeChunkM (hasStarted : Bool) (c : StreamChunk) :
    List OutFrame × Bool :=
  if !hasStarted && isTextChunk c then
    ([.roleFrame, transformChunk c], true)
  else
    ([transformChunk c], hasStarted)

/-- The frames written for a whole chunk list, threading `hasStarted`. -/
def writeAll (hasStarted : Bool) : List StreamChunk → List OutFrame
  | [] => []
  | c :: cs =>
    let r := writeChunkM hasStarted c
    r.1 ++ writeAll r.2 cs

/-- Model of `handleStreamingResponse`: streams every chunk through the writer
(starting with `hasStarted = false`), then `WriteFinalChunk` writes the
terminal `[DONE]` frame. -/
def writeSession (chunks : List StreamChunk) : List OutFrame :=
  writeAll false chunks ++ [.doneFrame]

/-! ## Message adapter (internal/gemini/client.go) -/

/-- One element of an array-typed message content, after the dynamic-type
inspections of the source: a map of type `text` carrying a text field, a
map of type `image_url` carrying a url field, a map with some other
`type` string, a map whose `type` is missing or not a string, or an array
element that is not a map at all. -/
inductive ContentItem : Type
  | text (s : Str)
  | imageURL (url : Str)
  | otherTyped (ty : Str)
  | untyped
  | nonMap
  deriving DecidableEq, Repr

/-- Model of `ChatMessage.Content` (`interface\x7b\x7d`): a plain string, an array of
items, or any other dynamic value (rendered by `fmt.Sprintf("%v", ...)` in
the fallback branch, modelled by carrying that rendering). -/
inductive MsgContent : Type
  | str (s : Str)
  | arr (items : List ContentItem)
  | otherVal (rendered : Str)
  deriving DecidableEq, Repr

/-- Model of `types.ChatMessage`. -/
structure ChatMessage : Type where
  role : Str
  content : MsgContent
  deriving DecidableEq, Repr

/-- A part of a converted upstream message (`types.GeminiPart` as built by
the adapter): a text part or an image part produced by the image resolver. -/
inductive UpPart : Type
  | textPart (s : Str)
  | imagePart (resolved : Str)
  deriving DecidableEq, Repr

/-- Model of `types.GeminiFormattedMessage`. -/
structure GeminiFormattedMessage : Type where
  role : Str
  parts : List UpPart
  deriving DecidableEq, Repr

/-- The loop body of `extractSystemPrompt`: for a `system` message, string
content and array content (joining the `text` sub-parts with `" "`)
overwrite the running prompt; any other content leaves it unchanged; every
`system` message is removed from the remaining list. -/
def extractSystemPromptAux (prompt : Str) :
    List ChatMessage → Str × List ChatMessage
  | [] => (prompt, [])
  | m :: ms =>
    if m.role = "system".toList then
      match m.content with
      | .str s => extractSystemPromptAux s ms
      | .arr items =>
        let textParts := items.filterMap fun it =>
          match it with
          | .text s => some s
          | _ => none
        extractSystemPromptAux (joinWith " ".toList textParts) ms
      | .otherVal _ => extractSystemPromptAux prompt ms
    else
      let r := extractSystemPromptAux prompt ms
      (r.1, m :: r.2)

/-- Faithful translation of `Client.extractSystemPrompt`: the running
prompt starts empty. -/
def extractSystemPrompt (ms : List ChatMessage) : Str × List ChatMessage :=
  extractSystemPromptAux [] ms

/-- Model of `Client.convertContentToGeminiPart`, parameterised by the image
resolver `convertImageURLToGeminiPart` (whose `utils` validation helpers
live outside the translated sources): a missing `type` is an error; a
`text` item yields a text part; an `image_url` item goes through the
resolver; anything else is silently dropped (`nil, nil`). -/
def convertContentToGeminiPart (resolveImage : Str → Except Str UpPart) :
    ContentItem → Except Str (Option UpPart)
  | .text s => .ok (some (.textPart s))
  | .imageURL url =>
    match resolveImage url with
    | .error e => .error e
    | .ok p => .ok (some p)
  | .otherTyped _ => .ok none
  | .untyped => .error "content type is required".toList
  | .nonMap => .ok none

/-- The part-collection loop of `convertMessageToGeminiFormat` over array
content: errors propagate, `nil` parts are skipped. -/
def convertItems (resolveImage : Str → Except Str UpPart) :
    List ContentItem → Except Str (List UpPart)
  | [] => .ok []
  | it :: its =>
    match convertContentToGeminiPart resolveImage it with
    | .error e => .error e
    | .ok p? =>
      match convertItems resolveImage its with
      | .error e => .error e
      | .ok ps => .ok (p?.toList ++ ps)

/-- Faithful translation of `Client.convertMessageToGeminiFormat`: the
`assistant` role is renamed to `model` and every other role is kept as-is;
string content becomes a single text part; array content is converted
item-wise; any other content value falls back to one text part holding its
`%v` rendering. -/
def convertMessageToGeminiFormat (resolveImage : Str → Except Str UpPart)
    (m : ChatMessage) : Except Str GeminiFormattedMessage :=
  let role := if m.role = "assistant".toList then "model".toList else m.role
  match m.content with
  | .str s => .ok ⟨role, [.textPart s]⟩
  | .arr items =>
    match convertItems resolveImage items with
    | .error e => .error e
    | .ok parts => .ok ⟨role, parts⟩
  | .otherVal rendered => .ok ⟨role, [.textPart rendered]⟩

/-- Model of `Client.convertMessagesToGeminiFormat`: converts each message in order,
propagating the first error. -/
def convertMessagesToGeminiFormat (resolveImage : Str → Except Str UpPart) :
    List ChatMessage → Except Str (List GeminiFormattedMessage)
  | [] => .ok []
  | m :: ms =>
    match convertMessageToGeminiFormat resolveImage m with
    | .error e => .error e
    | .ok g =>
      match convertMessagesToGeminiFormat resolveImage ms with
      | .error e => .error e
      | .ok gs => .ok (g :: gs)

/-- The synthetic leading turn `StreamContent` builds from a non-empty
system prompt. -/
def systemTurn (prompt : Str) : GeminiFormattedMessage :=
  ⟨"user".toList, [.textPart prompt]⟩

/-- The request-building slice of `Client.StreamContent`: extract the
system prompt, convert the remaining messages, and prepend one synthetic
leading `user` turn when the system prompt is non-empty. -/
def buildContents (resolveImage : Str → Except Str UpPart)
    (ms : List ChatMessage) : Except Str (List GeminiFormattedMessage) :=
  let r := extractSystemPrompt ms
  match convertMessagesToGeminiFormat resolveImage r.2 with
  | .error e => .error e
  | .ok contents =>
    .ok (if r.1 ≠ [] then systemTurn r.1 :: contents else contents)

/-! ## Synthetic reasoning generator: `Client.generateFakeThinking` and
`Client.splitIntoChunks` (internal/gemini/client.go).

Go indexes these strings by byte (`len`, slicing), and the reasoning
templates contain multi-byte runes, so this layer models strings as their
UTF-8 byte lists (`List Nat`). -/

/-- Constant `constants.ThinkingContentChunkSize`. -/
def thinkingContentChunkSize : Nat := 15

/-- The loop of `Client.splitIntoChunks`, fuelled for termination: each
iteration takes the next `chunkSize` bytes (`text[i:end]` with `end`
clamped to `len(text)`).  One unit of fuel per iteration;
`fuel = text.length` always suffices when `0 < chunkSize`, so the fuel-0
branch is unreachable in every use below. -/
def splitIntoChunksAux (chunkSize : Nat) : Nat → List Nat → List (List Nat)
  | 0, cs => [cs]
  | fuel + 1, cs =>
    if cs.length ≤ chunkSize then [cs]
    else cs.take chunkSize :: splitIntoChunksAux chunkSize fuel (cs.drop chunkSize)

/-- Faithful translation of `Client.splitIntoChunks`: a text no longer than
the chunk size is returned whole; otherwise it is cut every `chunkSize`
bytes with no regard for break characters. -/
def splitIntoChunks (text : List Nat) (chunkSize : Nat) : List (List Nat) :=
  splitIntoChunksAux chunkSize text.length text

/-- The placeholder `{requestPreview}` substituted into each template. -/
def previewPattern : List Nat := asciiBytes "{requestPreview}"

/-- Model of `strings.ReplaceAll(s, pat, rep)`, fuelled for termination: scans left
to right, replacing each non-overlapping occurrence of `pat` and not
rescanning the replacement.  `fuel = s.length` suffices for non-empty
`pat`, the only way it is used. -/
def replaceAllAux (pat rep : List Nat) : Nat → List Nat → List Nat
  | 0, s => s
  | _ + 1, [] => []
  | fuel + 1, c :: rest =>
    if leadsWith pat (c :: rest) then
      rep ++ replaceAllAux pat rep fuel ((c :: rest).drop pat.length)
    else
      c :: replaceAllAux pat rep fuel rest

/-- Model of `strings.ReplaceAll` at `fuel = s.length`. -/
def replaceAllBytes (s pat rep : List Nat) : List Nat :=
  replaceAllAux pat rep s.length s

/-- Constant `constants.ReasoningMessages`, as UTF-8 bytes: each template starts
with a multi-byte emoji (🔍, 🤔, 💭, 🎯, ✨), written here as its explicit
UTF-8 encoding, followed by ASCII text. -/
def reasoningMessages : List (List Nat) :=
  [[0xF0, 0x9F, 0x94, 0x8D] ++
     asciiBytes " **Analyzing the request: \"{requestPreview}\"**\n\n",
   [0xF0, 0x9F, 0xA4, 0x94] ++
     asciiBytes " Let me think about this step by step... ",
   [0xF0, 0x9F, 0x92, 0xAD] ++
     asciiBytes " I need to consider the context and provide a comprehensive response. ",
   [0xF0, 0x9F, 0x8E, 0xAF] ++
     asciiBytes " Based on my understanding, I should address the key points while being accurate and helpful. ",
   [0xE2, 0x9C, 0xA8] ++
     asciiBytes " Let me formulate a clear and structured answer.\n\n"]

/-- The substitution step of `generateFakeThinking`: every template with
`{requestPreview}` replaced by the preview. -/
def substitutedTemplates (requestPreview : List Nat) : List (List Nat) :=
  reasoningMessages.map (fun t => replaceAllBytes t previewPattern requestPreview)

/-- The chunk payloads `generateFakeThinking` emits for the substituted
templates (both modes split identically with
`splitIntoChunks(message, ThinkingContentChunkSize)`; delays and channel
plumbing are not part of the pure payload sequence). -/
def fakeThinkingChunkPayloads (requestPreview : List Nat) : List (List Nat) :=
  ((substitutedTemplates requestPreview).map
    (fun m => splitIntoChunks m thinkingContentChunkSize)).flatten

/-! ## `TextChunker.Split` (the word-boundary-aware chunker) -/

/-- The `goodBreaks` characters of `TextChunker.Split`, in source order
(each is a one-byte string in the source). -/
def goodBreakBytes : List Nat := asciiBytes " \n.,!?;:"

/-- Model of `strings.LastIndex` for a one-byte needle: the index of the last
occurrence, or `none` (Go returns -1, which fails the `idx > ...` guard). -/
def lastIdxOf (b : Nat) : List Nat → Option Nat
  | [] => none
  | c :: rest =>
    match lastIdxOf b rest with
    | some i => some (i + 1)
    | none => if c = b then some 0 else none

/-- The break-point search of `TextChunker.Split`: the first break
character (in `goodBreaks` order) whose last index in the search space
exceeds `chunkSize*7/10` sets `chunkEnd = idx + 1`; otherwise `chunkEnd`
stays `chunkSize`. -/
def tcFindBreakAux (chunkSize : Nat) (searchSpace : List Nat) :
    List Nat → Nat
  | [] => chunkSize
  | b :: bs =>
    match lastIdxOf b searchSpace with
    | some idx =>
      if chunkSize * 7 / 10 < idx then idx + 1
      else tcFindBreakAux chunkSize searchSpace bs
    | none => tcFindBreakAux chunkSize searchSpace bs

/-- Value `chunkEnd` as computed by one iteration of `TextChunker.Split`. -/
def tcFindBreak (chunkSize : Nat) (searchSpace : List Nat) : Nat :=
  tcFindBreakAux chunkSize searchSpace goodBreakBytes

/-- The loop of `TextChunker.Split`, fuelled for termination.  `none`
models a Go runtime panic: the source takes
`searchSpace := remaining[:chunkEnd+10]` with `chunkEnd = chunkSize`, which
panics (slice bounds out of range) whenever
`len(remaining) < chunkSize+10` at that point.  `fuel = remaining.length`
suffices when `0 < chunkSize` (every iteration consumes at least one
byte), so the fuel-0 branch is unreachable in every use below. -/
def tcSplitAux (chunkSize : Nat) : Nat → List Nat → Option (List (List Nat))
  | 0, _ => none
  | fuel + 1, remaining =>
    if remaining = [] then some []
    else if remaining.length ≤ chunkSize then some [remaining]
    else if remaining.length < chunkSize + 10 then none
    else
      let searchSpace := remaining.take (chunkSize + 10)
      let chunkEnd := tcFindBreak chunkSize searchSpace
      match tcSplitAux chunkSize fuel (remaining.drop chunkEnd) with
      | none => none
      | some chunks => some (remaining.take chunkEnd :: chunks)

/-- Faithful translation of `TextChunker.Split`, with `none` as a runtime
panic: a text no longer than the chunk size is returned whole; otherwise
the loop runs with the look-ahead window `remaining[:chunkEnd+10]`. -/
def tcSplit (text : List Nat) (chunkSize : Nat) : Option (List (List Nat)) :=
  if text.length ≤ chunkSize then some [text]
  else tcSplitAux chunkSize text.length text

/-! ## Credential cache and broker (auth package) -/

/-- Model of `types.CachedTokenData`, with times as `Int` seconds since the epoch. -/
structure CachedTokenData : Type where
  accessToken : Str
  expiryDate : Int
  cachedAt : Int
  deriving DecidableEq, Repr

/-- Constant `constants.TokenBufferTime` (5 minutes), in seconds. -/
def tokenBufferTime : Int := 5 * 60

/-- Model of `types.OAuth2Credentials` (the embedded long-lived bundle):
`expiryDate` is in milliseconds, as in the source, which divides by 1000. -/
structure OAuth2Credentials : Type where
  accessToken : Str
  refreshToken : Str
  expiryDate : Int
  deriving DecidableEq, Repr

/-- The three states of the `GCP_SERVICE_ACCOUNT` configuration observed by
`InitializeAuth`: unset, set but failing `json.Unmarshal`, or decoding to a
credential bundle. -/
inductive ServiceAccountConfig : Type
  | missing
  | malformed
  | valid (creds : OAuth2Credentials)
  deriving DecidableEq, Repr

/-- Which branch of `InitializeAuth` produced the returned token. -/
inductive TokenSource : Type
  | cached
  | original
  | refreshed
  deriving DecidableEq, Repr

/-- Constant `constants.ErrMissingGCPServiceAccount`. -/
def errMissingGCPServiceAccount : Str :=
  "GCP_SERVICE_ACCOUNT environment variable not set".toList

/-- Constant `constants.ErrInvalidOAuth2Credentials`. -/
def errInvalidOAuth2Credentials : Str :=
  "Invalid OAuth2 credentials format".toList

/-- Constant `constants.ErrTokenRefreshFailed`, as the prefix of the wrapped error. -/
def errTokenRefreshFailed : Str := "Token refresh failed: ".toList

/-- Faithful translation of `AuthManager.getCachedToken`: returns the
cached entry only while `now` is strictly before its expiry; an expired
entry is deleted from the cache on read.  Result: (returned token, cache
after the read). -/
def getCachedToken (cache : Option CachedTokenData) (now : Int) :
    Option CachedTokenData × Option CachedTokenData :=
  match cache with
  | none => (none, none)
  | some t => if now < t.expiryDate then (some t, some t) else (none, none)

/-- The fall-through tail of `InitializeAuth` once the cached token was
rejected: parse the embedded bundle, use it when it is still valid beyond
the buffer window (caching it), else run the refresh exchange
(`refreshAndCacheToken`).  `refreshExchange` is the identity-provider
oracle returning `(accessToken, expiresIn)`. -/
def initAuthFallThrough (refreshExchange : Str → Except Str (Str × Int))
    (cfg : ServiceAccountConfig) (cache : Option CachedTokenData)
    (now : Int) : Except Str (Str × Option CachedTokenData × TokenSource) :=
  match cfg with
  | .missing => .error errMissingGCPServiceAccount
  | .malformed => .error errInvalidOAuth2Credentials
  | .valid creds =>
    let expiryTime := Int.tdiv creds.expiryDate 1000
    if tokenBufferTime < expiryTime - now then
      .ok (creds.accessToken,
           some ⟨creds.accessToken, expiryTime, now⟩, .original)
    else
      match refreshExchange creds.refreshToken with
      | .error e => .error (errTokenRefreshFailed ++ e)
      | .ok (tok, expiresIn) =>
        .ok (tok, some ⟨tok, now + expiresIn, now⟩, .refreshed)

/-- Faithful translation of `AuthManager.InitializeAuth` (`acquire()`):
fail when the configuration is unset; return the cached token only when it
survives past `now` plus the buffer window; otherwise fall through to the
embedded bundle or the refresh exchange. -/
def initAuth (refreshExchange : Str → Except Str (Str × Int))
    (cfg : ServiceAccountConfig) (cache : Option CachedTokenData)
    (now : Int) : Except Str (Str × Option CachedTokenData × TokenSource) :=
  match cfg with
  | .missing => .error errMissingGCPServiceAccount
  | _ =>
    let g := getCachedToken cache now
    match g.1 with
    | some t =>
      if tokenBufferTime < t.expiryDate - now then
        .ok (t.accessToken, g.2, .cached)
      else initAuthFallThrough refreshExchange cfg g.2 now
    | none => initAuthFallThrough refreshExchange cfg g.2 now

/-! ## Upstream invoker retry: `Client.performStreamRequestWithRetry` -/

/-- The errors `performStreamRequestWithRetry` can surface: a failure of
the re-initialisation during the 401 retry, or a non-200 response
surfaced as `stream request failed with status %d`. -/
inductive StreamCallError : Type
  | authError (e : Str)
  | httpStatusError (status : Nat)
  deriving DecidableEq, Repr

/-- The `isRetry = true` instance of `performStreamRequestWithRetry`: the
401-retry branch is disabled by the flag, so any non-200 status (401
included) is surfaced as an error; 200 proceeds to stream parsing. -/
def performStreamAttemptRetry {Req : Type} (send : Req → Str → Nat)
    (req : Req) (token : Str) : Except StreamCallError Unit :=
  if send req token ≠ 200 then .error (.httpStatusError (send req token))
  else .ok ()

/-- Faithful translation of `performStreamRequestWithRetry` from its
initial `isRetry = false` call (`performStreamRequest`), recording every
issued attempt as (request, bearer token).  On a 401 the token cache is
cleared (`ClearTokenCache`, so `InitializeAuth` runs on an empty cache)
and the identical request is re-sent once with the re-brokered token;
`send` abstracts the HTTP round trip and stream-body parsing is abstracted
to success. -/
def performStreamRequestWithRetry {Req : Type} (send : Req → Str → Nat)
    (refreshExchange : Str → Except Str (Str × Int))
    (cfg : ServiceAccountConfig) (now : Int) (token : Str) (req : Req) :
    List (Req × Str) × Except StreamCallError Unit :=
  let status := send req token
  if status = 401 then
    match initAuth refreshExchange cfg none now with
    | .error e => ([(req, token)], .error (.authError e))
    | .ok (token2, _, _) =>
      ([(req, token), (req, token2)], performStreamAttemptRetry send req token2)
  else
    ([(req, token)],
     if status ≠ 200 then .error (.httpStatusError status) else .ok ())

/-! ## Invariant lemmas for the thinking-tag state machine -/

theorem tagsDiffer : thinkingOpenTag ≠ thinkingCloseTag := by decide

theorem tagsDiffer' : thinkingCloseTag ≠ thinkingOpenTag := by decide

theorem processPart_closed_mono (o : Option StreamOptions) (st : ThinkState)
    (p : GeminiPart) (h : st.hasClosedThinking = true) :
    (processPart o st p).2.hasClosedThinking = true := by
  cases hopt : (o.map (fun x => x.streamThinkingAsContent)).getD false <;>
  cases hth : p.thought <;>
  cases hst : st.hasStartedThinking <;>
  by_cases htext : p.text = [] <;>
  simp_all [processPart]

theorem processPart_started_mono (o : Option StreamOptions) (st : ThinkState)
    (p : GeminiPart) (h : st.hasStartedThinking = true) :
    (processPart o st p).2.hasStartedThinking = true := by
  cases hopt : (o.map (fun x => x.streamThinkingAsContent)).getD false <;>
  cases hth : p.thought <;>
  cases hcl : st.hasClosedThinking <;>
  by_cases htext : p.text = [] <;>
  simp_all [processPart]

theorem processPart_close_mem (o : Option StreamOptions) (st : ThinkState)
    (p : GeminiPart) (hp : p.thought = true → p.text ≠ thinkingCloseTag)
    (h : closeMarkerChunk ∈ (processPart o st p).1) :
    (processPart o st p).2.hasClosedThinking = true := by
  cases hopt : (o.map (fun x => x.streamThinkingAsContent)).getD false <;>
  cases hth : p.thought <;>
  cases hst : st.hasStartedThinking <;>
  cases hcl : st.hasClosedThinking <;>
  by_cases htext : p.text = [] <;>
  simp_all [processPart, closeMarkerChunk, tagsDiffer, tagsDiffer']

theorem processPart_open_mem (o : Option StreamOptions) (st : ThinkState)
    (p : GeminiPart) (hp : p.thought = true → p.text ≠ thinkingOpenTag)
    (h : openMarkerChunk ∈ (processPart o st p).1) :
    st.hasStartedThinking = false ∧
      (processPart o st p).2.hasStartedThinking = true := by
  cases hopt : (o.map (fun x => x.streamThinkingAsContent)).getD false <;>
  cases hth : p.thought <;>
  cases hst : st.hasStartedThinking <;>
  cases hcl : st.hasClosedThinking <;>
  by_cases htext : p.text = [] <;>
  simp_all [processPart, openMarkerChunk, tagsDiffer, tagsDiffer']

theorem processPart_open_count_le (o : Option StreamOptions) (st : ThinkState)
    (p : GeminiPart) (hp : p.thought = true → p.text ≠ thinkingOpenTag) :
    (processPart o st p).1.count openMarkerChunk ≤ 1 := by
  cases hopt : (o.map (fun x => x.streamThinkingAsContent)).getD false <;>
  cases hth : p.thought <;>
  cases hst : st.hasStartedThinking <;>
  cases hcl : st.hasClosedThinking <;>
  by_cases htext : p.text = [] <;>
  simp_all [processPart, openMarkerChunk, tagsDiffer, tagsDiffer',
    List.count_cons, List.count_nil]

theorem processParts_closed_mono (o : Option StreamOptions) (st : ThinkState)
    (ps : List GeminiPart) (h : st.hasClosedThinking = true) :
    (processParts o st ps).2.hasClosedThinking = true := by
  induction ps generalizing st with
  | nil => exact h
  | cons p ps ih =>
    simp only [processParts]
    exact ih _ (processPart_closed_mono o st p h)

theorem processParts_started_mono (o : Option StreamOptions) (st : ThinkState)
    (ps : List GeminiPart) (h : st.hasStartedThinking = true) :
    (processParts o st ps).2.hasStartedThinking = true := by
  induction ps generalizing st with
  | nil => exact h
  | cons p ps ih =>
    simp only [processParts]
    exact ih _ (processPart_started_mono o st p h)

theorem processParts_close_not_mem (o : Option StreamOptions) (st : ThinkState)
    (ps : List GeminiPart)
    (hp : ∀ p ∈ ps, p.thought = true → p.text ≠ thinkingCloseTag)
    (h : (processParts o st ps).2.hasClosedThinking = false) :
    closeMarkerChunk ∉ (processParts o st ps).1 := by
  induction ps generalizing st with
  | nil => simp [processParts]
  | cons p ps ih =>
    have h2 : (processParts o (processPart o st p).2 ps).2.hasClosedThinking
        = false := by
      simpa [processParts] using h
    have hmid : (processPart o st p).2.hasClosedThinking = false := by
      by_contra hc
      have hmid' : (processPart o st p).2.hasClosedThinking = true := by
        revert hc; cases (processPart o st p).2.hasClosedThinking <;> simp
      have := processParts_closed_mono o _ ps hmid'
      simp_all
    simp only [processParts, List.mem_append]
    intro hmem
    rcases hmem with hin | hin
    · have := processPart_close_mem o st p (hp p (by simp)) hin
      simp_all
    · exact ih _ (fun q hq => hp q (by simp [hq])) h2 hin

theorem processParts_open_count (o : Option StreamOptions) (st : ThinkState)
    (ps : List GeminiPart)
    (hp : ∀ p ∈ ps, p.thought = true → p.text ≠ thinkingOpenTag) :
    (processParts o st ps).1.count openMarkerChunk ≤
      (if st.hasStartedThinking then 0 else 1) := by
  induction ps generalizing st with
  | nil => simp [processParts]
  | cons p ps ih =>
    simp only [processParts, List.count_append]
    have ihrest := ih (processPart o st p).2
      (fun q hq => hp q (by simp [hq]))
    by_cases hst : st.hasStartedThinking = true
    · have hcs : (processPart o st p).1.count openMarkerChunk = 0 :=
        List.count_eq_zero.mpr (fun hmem => by
          have := (processPart_open_mem o st p (hp p (by simp)) hmem).1
          simp_all)
      have hmid := processPart_started_mono o st p hst
      simp_all
    · by_cases hmid : (processPart o st p).2.hasStartedThinking = true
      · have hcs := processPart_open_count_le o st p (hp p (by simp))
        simp_all
      · have hcs : (processPart o st p).1.count openMarkerChunk = 0 :=
          List.count_eq_zero.mpr (fun hmem => by
            have := (processPart_open_mem o st p (hp p (by simp)) hmem).2
            simp_all)
        simp_all

/-! ## SSE-level lifting of the close-marker invariant -/

/-- The parts carried by a decoded event (empty when `Response` is null). -/
def eventParts (r : GeminiResponse) : List GeminiPart :=
  match r.response with
  | none => []
  | some body => responseParts body

/-- The usage metadata carried by a decoded event. -/
def eventUsage (r : GeminiResponse) : Option GeminiUsageMetadata :=
  r.response.bind (fun body => body.usageMetadata)

theorem closeMarker_not_mem_usageChunks (u : Option GeminiUsageMetadata) :
    closeMarkerChunk ∉ usageChunks u := by
  cases u <;> simp [usageChunks, closeMarkerChunk]

theorem processSSEData_closed_mono (decode : Str → Except Str GeminiResponse)
    (o : Option StreamOptions) (data : Str) (st : ThinkState)
    (cs : List StreamChunk) (st2 : ThinkState)
    (hok : processSSEData decode o data st = .ok (cs, st2))
    (h : st.hasClosedThinking = true) : st2.hasClosedThinking = true := by
  unfold processSSEData at hok
  split at hok
  · simp only [Except.ok.injEq, Prod.mk.injEq] at hok
    exact hok.2 ▸ h
  · split at hok
    · cases hok
    · split at hok
      · simp only [Except.ok.injEq, Prod.mk.injEq] at hok
        exact hok.2 ▸ h
      · simp only [Except.ok.injEq, Prod.mk.injEq] at hok
        exact hok.2 ▸ processParts_closed_mono o st _ h

theorem processSSEData_close_not_mem
    (decode : Str → Except Str GeminiResponse) (o : Option StreamOptions)
    (data : Str) (st : ThinkState) (cs : List StreamChunk) (st2 : ThinkState)
    (hdec : ∀ r, decode data = .ok r →
      ∀ p ∈ eventParts r, p.thought = true → p.text ≠ thinkingCloseTag)
    (hok : processSSEData decode o data st = .ok (cs, st2))
    (h : st2.hasClosedThinking = false) : closeMarkerChunk ∉ cs := by
  unfold processSSEData at hok
  split at hok
  · simp only [Except.ok.injEq, Prod.mk.injEq] at hok
    simp [← hok.1]
  · split at hok
    · cases hok
    · rename_i resp hdecEq
      split at hok
      · simp only [Except.ok.injEq, Prod.mk.injEq] at hok
        simp [← hok.1]
      · rename_i body hrespEq
        simp only [Except.ok.injEq, Prod.mk.injEq] at hok
        obtain ⟨h1, h2⟩ := hok
        subst h1
        intro hmem
        rcases List.mem_append.mp hmem with hin | hin
        · have hps : ∀ p ∈ responseParts body, p.thought = true →
              p.text ≠ thinkingCloseTag := by
            have hall := hdec resp hdecEq
            simp_all [eventParts, hrespEq]
          exact processParts_close_not_mem o st _ hps (by simp_all) hin
        · exact closeMarker_not_mem_usageChunks _ hin

theorem runSSE_closed_mono (decode : Str → Except Str GeminiResponse)
    (o : Option StreamOptions) (lines : List Str) :
    ∀ (st : ThinkState) (buf : Str) (cs : List StreamChunk)
      (st2 : ThinkState),
      runSSE decode o st buf lines = .ok (cs, st2) →
      st.hasClosedThinking = true → st2.hasClosedThinking = true := by
  induction lines with
  | nil =>
    intro st buf cs st2 hok h
    simp only [runSSE, Except.ok.injEq, Prod.mk.injEq] at hok
    exact hok.2 ▸ h
  | cons line rest ih =>
    intro st buf cs st2 hok h
    unfold runSSE at hok
    split at hok
    · split at hok
      · cases hmid : processSSEData decode o buf st with
        | error e => rw [hmid] at hok; cases hok
        | ok pr =>
          obtain ⟨cs1, st1⟩ := pr
          rw [hmid] at hok
          dsimp only [] at hok
          cases hrest : runSSE decode o st1 [] rest with
          | error e => rw [hrest] at hok; cases hok
          | ok pr2 =>
            obtain ⟨cs2, st3⟩ := pr2
            rw [hrest] at hok
            dsimp only [] at hok
            simp only [Except.ok.injEq, Prod.mk.injEq] at hok
            exact hok.2 ▸ ih _ _ _ _ hrest
              (processSSEData_closed_mono decode o buf st cs1 st1 hmid h)
      · exact ih _ _ _ _ hok h
    · split at hok
      · exact ih _ _ _ _ hok h
      · exact ih _ _ _ _ hok h

theorem runSSE_close_not_mem (decode : Str → Except Str GeminiResponse)
    (o : Option StreamOptions)
    (hdec : ∀ s r, decode s = .ok r →
      ∀ p ∈ eventParts r, p.thought = true → p.text ≠ thinkingCloseTag)
    (lines : List Str) :
    ∀ (st : ThinkState) (buf : Str) (cs : List StreamChunk)
      (st2 : ThinkState),
      runSSE decode o st buf lines = .ok (cs, st2) →
      st2.hasClosedThinking = false → closeMarkerChunk ∉ cs := by
  induction lines with
  | nil =>
    intro st buf cs st2 hok h
    simp only [runSSE, Except.ok.injEq, Prod.mk.injEq] at hok
    simp [← hok.1]
  | cons line rest ih =>
    intro st buf cs st2 hok h
    unfold runSSE at hok
    split at hok
    · split at hok
      · cases hmid : processSSEData decode o buf st with
        | error e => rw [hmid] at hok; cases hok
        | ok pr =>
          obtain ⟨cs1, st1⟩ := pr
          rw [hmid] at hok
          dsimp only [] at hok
          cases hrest : runSSE decode o st1 [] rest with
          | error e => rw [hrest] at hok; cases hok
          | ok pr2 =>
            obtain ⟨cs2, st3⟩ := pr2
            rw [hrest] at hok
            dsimp only [] at hok
            simp only [Except.ok.injEq, Prod.mk.injEq] at hok
            obtain ⟨h1, h2⟩ := hok
            subst h1
            subst h2
            have hst1 : st1.hasClosedThinking = false := by
              by_contra hc
              have hst1' : st1.hasClosedThinking = true := by
                revert hc; cases st1.hasClosedThinking <;> simp
              have := runSSE_closed_mono decode o rest _ _ _ _ hrest hst1'
              simp_all
            intro hmem
            rcases List.mem_append.mp hmem with hin | hin
            · exact processSSEData_close_not_mem decode o buf st cs1 st1
                (fun r hr => hdec buf r hr) hmid hst1 hin
            · exact ih _ _ _ _ hrest h hin
      · exact ih _ _ _ _ hok h
    · split at hok
      · exact ih _ _ _ _ hok h
      · exact ih _ _ _ _ hok h
/-! ## Framing: a well-formed frame encoding parses to payload processing -/

theorem leadsWith_append {α : Type} [DecidableEq α] (l m : List α) :
    leadsWith l (l ++ m) = true := by
  induction l with
  | nil => rfl
  | cons a as ih => simp [leadsWith, ih]

theorem drop_sseDataMark (p : Str) : (sseDataMark ++ p).drop 6 = p := rfl

theorem runSSE_frames (decode : Str → Except Str GeminiResponse)
    (o : Option StreamOptions) :
    ∀ (payloads : List Str) (st : ThinkState),
      (∀ p ∈ payloads, p ≠ []) →
      runSSE decode o st [] (encodeFrames payloads) =
        processPayloads decode o st payloads := by
  intro payloads
  induction payloads with
  | nil =>
    intro st hne
    rfl
  | cons p ps ih =>
    intro st hne
    have hp : p ≠ [] := hne p (by simp)
    have henc : encodeFrames (p :: ps) =
        (sseDataMark ++ p) :: [] :: encodeFrames ps := by
      simp [encodeFrames]
    rw [henc]
    rw [runSSE]
    rw [if_neg (by simp [sseDataMark]), if_pos (leadsWith_append _ _)]
    rw [List.nil_append, drop_sseDataMark]
    rw [runSSE]
    rw [if_pos rfl, if_pos hp]
    rw [processPayloads]
    cases hmid : processSSEData decode o p st with
    | error e => rfl
    | ok pr =>
      obtain ⟨cs1, st1⟩ := pr
      dsimp only []
      rw [ih st1 (fun q hq => hne q (by simp [hq]))]

/-! ## Pure final-text streams (support for the round-trip property) -/

/-- The final-answer texts of a decoded event list, in order. -/
def eventTexts (rs : List GeminiResponse) : List Str :=
  (rs.map (fun r => (eventParts r).map (fun p => p.text))).flatten

/-- The usage metadata of the last event of a stream, if any. -/
def lastEventUsage (rs : List GeminiResponse) : Option GeminiUsageMetadata :=
  match rs.getLast? with
  | none => none
  | some r => eventUsage r

theorem processParts_all_final (o : Option StreamOptions)
    (ps : List GeminiPart)
    (h : ∀ p ∈ ps, p.thought = false ∧ p.text ≠ []) :
    processParts o initThinkState ps =
      (ps.map (fun p => .text p.text), initThinkState) := by
  induction ps with
  | nil => rfl
  | cons p ps ih =>
    obtain ⟨hth, htext⟩ := h p (by simp)
    have hstep : processPart o initThinkState p =
        ([.text p.text], initThinkState) := by
      simp [processPart, hth, htext, initThinkState]
    simp [processParts, hstep, ih (fun q hq => h q (by simp [hq]))]

theorem processSSEData_good (decode : Str → Except Str GeminiResponse)
    (o : Option StreamOptions) (p : Str) (r : GeminiResponse)
    (hne : p ≠ doneSentinel) (hdec : decode p = .ok r)
    (hparts : ∀ q ∈ eventParts r, q.thought = false ∧ q.text ≠ []) :
    processSSEData decode o p initThinkState =
      .ok ((eventParts r).map (fun q => StreamChunk.text q.text) ++
            usageChunks (eventUsage r), initThinkState) := by
  unfold processSSEData
  rw [if_neg hne, hdec]
  cases hresp : r.response with
  | none =>
    simp [eventParts, hresp, eventUsage, usageChunks]
  | some body =>
    dsimp only []
    rw [hresp]
    dsimp only []
    have hparts' : ∀ q ∈ responseParts body, q.thought = false ∧
        q.text ≠ [] := by
      intro q hq
      exact hparts q (by simp [eventParts, hresp, hq])
    rw [processParts_all_final o (responseParts body) hparts']
    simp [eventParts, eventUsage, hresp]

theorem getLastD_cons {α : Type} (a : α) (l : List α) (d : α) :
    ((a :: l).getLast?).getD d = (l.getLast?).getD a := by
  induction l generalizing a d with
  | nil => rfl
  | cons b bs ih =>
    rw [List.getLast?_cons_cons]
    rw [ih b d, ih b a]

theorem processPayloads_good (decode : Str → Except Str GeminiResponse)
    (o : Option StreamOptions) :
    ∀ (pairs : List (Str × GeminiResponse)),
      (∀ pr ∈ pairs, pr.1 ≠ doneSentinel ∧ decode pr.1 = .ok pr.2) →
      (∀ pr ∈ pairs, ∀ q ∈ eventParts pr.2, q.thought = false ∧
        q.text ≠ []) →
      (∀ pr ∈ pairs.dropLast, eventUsage pr.2 = none) →
      processPayloads decode o initThinkState (pairs.map (fun pr => pr.1)) =
        .ok ((eventTexts (pairs.map (fun pr => pr.2))).map
              (fun s => StreamChunk.text s) ++
            usageChunks (lastEventUsage (pairs.map (fun pr => pr.2))),
          initThinkState) := by
  intro pairs
  induction pairs with
  | nil =>
    intro h1 h2 h3
    rfl
  | cons pr pairs ih =>
    intro h1 h2 h3
    obtain ⟨hne, hdec⟩ := h1 pr (by simp)
    simp only [List.map_cons]
    rw [processPayloads]
    rw [processSSEData_good decode o pr.1 pr.2 hne hdec (h2 pr (by simp))]
    dsimp only []
    cases pairs with
    | nil =>
      simp [processPayloads, eventTexts, lastEventUsage, eventParts]
    | cons pr2 rest =>
      have husage : eventUsage pr.2 = none := by
        have : pr ∈ (pr :: pr2 :: rest).dropLast := by
          simp [List.dropLast_cons₂]
        exact h3 pr this
      have ih' := ih (fun q hq => h1 q (by simp [hq]))
        (fun q hq => h2 q (by simp [hq]))
        (fun q hq => h3 q (by
          simp only [List.dropLast_cons₂, List.mem_cons]
          right
          exact hq))
      rw [ih']
      dsimp only []
      have hlast : lastEventUsage (pr.2 :: pr2.2 :: rest.map (fun x => x.2)) =
          lastEventUsage (pr2.2 :: rest.map (fun x => x.2)) := by
        simp [lastEventUsage, List.getLast?_cons_cons]
      simp [eventTexts, husage, usageChunks, hlast, List.append_assoc]

theorem sessionTrace_done_count (cs : List StreamChunk) :
    (sessionTrace cs).count SessionEvent.done = 1 := by
  induction cs with
  | nil => rfl
  | cons c cs ih => simpa [sessionTrace, List.count_cons] using ih

/-! ## Claim C1 -/

/-- A concrete decode oracle for a stream with a single thought part. -/
def c1Decode : Str → Except Str GeminiResponse := fun s =>
  if s = "T1".toList then
    .ok ⟨some ⟨[⟨some [⟨"I think".toList, true⟩]⟩], none⟩⟩
  else .error "bad".toList

/-- C1 counterexample: with thinking rendered inline as tagged content, a
stream holding one thought-flagged part and then ending emits the
`ThinkingOpenMarker` and the thought text, yet the session trace reaching
the client carries no `ThinkingCloseMarker` anywhere before the terminal
`Done` sentinel: the trailing open thinking block is silently dropped,
contradicting the claim that it is still closed before `Done`. -/
theorem c1_counterexample :
    runSSE c1Decode (some ⟨true⟩) initThinkState []
        (encodeFrames ["T1".toList]) =
      .ok ([openMarkerChunk, .thinkingContent "I think".toList],
        ⟨true, false⟩) ∧
    sessionTrace [openMarkerChunk, .thinkingContent "I think".toList] =
      [.chunk openMarkerChunk, .chunk (.thinkingContent "I think".toList),
        .done] ∧
    SessionEvent.chunk closeMarkerChunk ∉
      sessionTrace [openMarkerChunk, .thinkingContent "I think".toList] :=
  ⟨by rfl, by rfl, by decide⟩

/-- C1 (amended): when the upstream stream ends while the thinking block is
still open (no non-thought text part ever closed it, so
`hasClosedThinking` is still false), the pipeline emits no
`ThinkingCloseMarker` at all — the client-facing trace goes straight to the
`Done` sentinel and the trailing open block is dropped, not closed.  (The
decode hypothesis rules out a thought part whose text is literally the
close tag, which would be indistinguishable from a marker on the wire.) -/
theorem c1_no_close_marker_when_stream_ends_open
    (decode : Str → Except Str GeminiResponse) (o : Option StreamOptions)
    (lines : List Str) (cs : List StreamChunk) (st2 : ThinkState)
    (hdec : ∀ s r, decode s = .ok r →
      ∀ p ∈ eventParts r, p.thought = true → p.text ≠ thinkingCloseTag)
    (hok : runSSE decode o initThinkState [] lines = .ok (cs, st2))
    (hend : st2.hasClosedThinking = false) :
    SessionEvent.chunk closeMarkerChunk ∉ sessionTrace cs := by
  have hnot := runSSE_close_not_mem decode o hdec lines initThinkState []
    cs st2 hok hend
  intro hmem
  simp only [sessionTrace, List.mem_append, List.mem_map,
    List.mem_singleton] at hmem
  rcases hmem with ⟨c, hc, hceq⟩ | hdone
  · cases hceq
    exact hnot hc
  · cases hdone

/-- Witness for the amended C1 theorem at a concrete one-thought stream. -/
theorem c1_witness :
    SessionEvent.chunk closeMarkerChunk ∉
      sessionTrace [openMarkerChunk, .thinkingContent "I think".toList] := by
  refine c1_no_close_marker_when_stream_ends_open c1Decode (some ⟨true⟩)
    (encodeFrames ["T1".toList])
    [openMarkerChunk, .thinkingContent "I think".toList] ⟨true, false⟩
    ?_ (by rfl) (by rfl)
  intro s r h
  simp only [c1Decode] at h
  by_cases hs : s = "T1".toList
  · rw [if_pos hs] at h
    have h2 := (Except.ok.inj h).symm
    subst h2
    decide
  · rw [if_neg hs] at h
    cases h

/-! ## Claim C2 -/

/-- A thought / non-thought / thought interleaving. -/
def c2Parts : List GeminiPart :=
  [⟨"A".toList, true⟩, ⟨"B".toList, false⟩, ⟨"C".toList, true⟩]

/-- C2 counterexample: in a thought → non-thought → thought interleaving
(thinking rendered inline as tagged content), the second thought part is
emitted with no preceding `ThinkingOpenMarker`: `hasStartedThinking` is
never reset, so the whole output carries exactly one open marker,
contradicting the claim that the classifier re-opens after a close. -/
theorem c2_counterexample :
    processParts (some ⟨true⟩) initThinkState c2Parts =
      ([openMarkerChunk, .thinkingContent "A".toList, closeMarkerChunk,
        .text "B".toList, .thinkingContent "C".toList], ⟨true, true⟩) ∧
    (processParts (some ⟨true⟩) initThinkState c2Parts).1.count
        openMarkerChunk = 1 := by
  constructor
  · rfl
  · decide

/-- C2 (amended): with thinking rendered inline as tagged content, a
thought-flagged text part processed while `hasStartedThinking` is still
false is preceded by a `ThinkingOpenMarker` (and the flag is set); but the
flag is never reset, so over any part sequence of a session the open
marker is emitted at most once — after a close, a later thought part gets
no new open marker.  (The hypothesis rules out thought parts whose text is
literally the open tag.) -/
theorem c2_open_marker_only_before_first_thought :
    (∀ (c : Bool) (p : GeminiPart), p.thought = true → p.text ≠ [] →
      processPart (some ⟨true⟩) ⟨false, c⟩ p =
        ([openMarkerChunk, .thinkingContent p.text], ⟨true, c⟩)) ∧
    (∀ (o : Option StreamOptions) (ps : List GeminiPart),
      (∀ p ∈ ps, p.thought = true → p.text ≠ thinkingOpenTag) →
      (processParts o initThinkState ps).1.count openMarkerChunk ≤ 1) := by
  constructor
  · intro c p hth htext
    simp [processPart, hth, htext, openMarkerChunk]
  · intro o ps hp
    have := processParts_open_count o initThinkState ps hp
    simpa [initThinkState] using this

/-- Witness for the amended C2 theorem at the concrete interleaving. -/
theorem c2_witness :
    processPart (some ⟨true⟩) ⟨false, false⟩ (⟨"A".toList, true⟩ : GeminiPart)
        = ([openMarkerChunk, .thinkingContent "A".toList], ⟨true, false⟩) ∧
    (processParts (some ⟨true⟩) initThinkState c2Parts).1.count
        openMarkerChunk ≤ 1 :=
  ⟨c2_open_marker_only_before_first_thought.1 false ⟨"A".toList, true⟩
      (by decide) (by decide),
   c2_open_marker_only_before_first_thought.2 (some ⟨true⟩) c2Parts
      (by decide)⟩

/-! ## Claim C3 -/

theorem processPayloads_append_sentinel
    (decode : Str → Except Str GeminiResponse) (o : Option StreamOptions) :
    ∀ (ps : List Str) (st : ThinkState) (cs : List StreamChunk)
      (st2 : ThinkState),
      processPayloads decode o st ps = .ok (cs, st2) →
      processPayloads decode o st (ps ++ [doneSentinel]) = .ok (cs, st2) := by
  intro ps
  induction ps with
  | nil =>
    intro st cs st2 h
    simp only [processPayloads, Except.ok.injEq, Prod.mk.injEq] at h
    simp [processPayloads, processSSEData, h.1, h.2]
  | cons p ps ih =>
    intro st cs st2 h
    rw [List.cons_append]
    rw [processPayloads] at h ⊢
    cases hmid : processSSEData decode o p st with
    | error e => rw [hmid] at h; cases h
    | ok pr =>
      obtain ⟨cs1, st1⟩ := pr
      rw [hmid] at h
      dsimp only [] at h ⊢
      cases hrest : processPayloads decode o st1 ps with
      | error e => rw [hrest] at h; cases h
      | ok pr2 =>
        obtain ⟨cs2, st3⟩ := pr2
        rw [hrest] at h
        dsimp only [] at h
        rw [ih st1 cs2 st3 hrest]
        exact h

/-- C3: a well-formed upstream SSE stream — `data: `-prefixed lines, blank
event boundaries, a trailing literal `[DONE]` sentinel frame that is
discarded without decoding — whose decoded events carry only non-thought
text parts (and usage metadata at most on the final event, as the upstream
produces it) yields exactly the events' final texts as `FinalText` chunks
in input order, followed by one `Usage` chunk when usage metadata is
present, and the client-facing session trace ends with exactly one `Done`
sentinel. -/
theorem c3_round_trip_final_text_stream
    (decode : Str → Except Str GeminiResponse) (o : Option StreamOptions)
    (pairs : List (Str × GeminiResponse))
    (h1 : ∀ pr ∈ pairs, pr.1 ≠ [] ∧ pr.1 ≠ doneSentinel ∧
      decode pr.1 = .ok pr.2)
    (h2 : ∀ pr ∈ pairs, ∀ q ∈ eventParts pr.2, q.thought = false ∧
      q.text ≠ [])
    (h3 : ∀ pr ∈ pairs.dropLast, eventUsage pr.2 = none) :
    runSSE decode o initThinkState []
        (encodeFrames (pairs.map (fun pr => pr.1) ++ [doneSentinel])) =
      .ok ((eventTexts (pairs.map (fun pr => pr.2))).map
            (fun s => StreamChunk.text s) ++
          usageChunks (lastEventUsage (pairs.map (fun pr => pr.2))),
        initThinkState) ∧
    (sessionTrace ((eventTexts (pairs.map (fun pr => pr.2))).map
            (fun s => StreamChunk.text s) ++
          usageChunks (lastEventUsage (pairs.map (fun pr => pr.2))))).count
        SessionEvent.done = 1 := by
  constructor
  · have hne : ∀ p ∈ pairs.map (fun pr => pr.1) ++ [doneSentinel],
        p ≠ [] := by
      intro p hp
      rcases List.mem_append.mp hp with hin | hin
      · obtain ⟨pr, hpr, hpeq⟩ := List.mem_map.mp hin
        exact hpeq ▸ (h1 pr hpr).1
      · rw [List.mem_singleton.mp hin]
        decide
    rw [runSSE_frames decode o _ initThinkState hne]
    exact processPayloads_append_sentinel decode o _ _ _ _
      (processPayloads_good decode o pairs
        (fun pr hpr => ⟨(h1 pr hpr).2.1, (h1 pr hpr).2.2⟩) h2 h3)
  · exact sessionTrace_done_count _

/-- Witness for C3: a two-event stream carrying texts `Hi` and ` there`
with usage metadata on the final event. -/
theorem c3_witness :
    runSSE (fun s =>
        if s = "E1".toList then
          .ok ⟨some ⟨[⟨some [⟨"Hi".toList, false⟩]⟩], none⟩⟩
        else if s = "E2".toList then
          .ok ⟨some ⟨[⟨some [⟨" there".toList, false⟩]⟩], some ⟨3, 2⟩⟩⟩
        else .error "bad".toList)
      none initThinkState []
      (encodeFrames ["E1".toList, "E2".toList, doneSentinel]) =
      .ok ([.text "Hi".toList, .text " there".toList, .usage 3 2],
        initThinkState) := by
  have h := c3_round_trip_final_text_stream
    (fun s =>
      if s = "E1".toList then
        .ok ⟨some ⟨[⟨some [⟨"Hi".toList, false⟩]⟩], none⟩⟩
      else if s = "E2".toList then
        .ok ⟨some ⟨[⟨some [⟨" there".toList, false⟩]⟩], some ⟨3, 2⟩⟩⟩
      else .error "bad".toList)
    none
    [("E1".toList, ⟨some ⟨[⟨some [⟨"Hi".toList, false⟩]⟩], none⟩⟩),
     ("E2".toList, ⟨some ⟨[⟨some [⟨" there".toList, false⟩]⟩], some ⟨3, 2⟩⟩⟩)]
    (by decide) (by decide) (by decide)
  exact h.1

/-! ## Claim C4 -/

theorem initAuthFallThrough_not_cached
    (refreshExchange : Str → Except Str (Str × Int))
    (cfg : ServiceAccountConfig) (cache : Option CachedTokenData) (now : Int)
    (tok : Str) (c2 : Option CachedTokenData) (src : TokenSource)
    (h : initAuthFallThrough refreshExchange cfg cache now =
      .ok (tok, c2, src)) : src ≠ .cached := by
  unfold initAuthFallThrough at h
  cases cfg with
  | missing => cases h
  | malformed => cases h
  | valid creds =>
    dsimp only [] at h
    split at h
    · simp only [Except.ok.injEq, Prod.mk.injEq] at h
      rw [← h.2.2]
      decide
    · split at h
      · cases h
      · simp only [Except.ok.injEq, Prod.mk.injEq] at h
        rw [← h.2.2]
        decide

/-- C4: `InitializeAuth` (the broker's `acquire()`) returns the cached
credential only when `now + bufferWindow < expiry` holds strictly (the
source's `time.Until(expiry) > TokenBufferTime`); and when a cached
credential sits within the buffer window of its expiry, the read is a miss
and the call falls through to the embedded bundle / refresh exchange
(`initAuthFallThrough`), with the entry deleted when already expired. -/
theorem c4_cached_only_outside_buffer_window :
    (∀ (refreshExchange : Str → Except Str (Str × Int))
       (cfg : ServiceAccountConfig) (cache : Option CachedTokenData)
       (now : Int) (tok : Str) (cache2 : Option CachedTokenData),
       initAuth refreshExchange cfg cache now = .ok (tok, cache2, .cached) →
       ∃ t, cache = some t ∧ tok = t.accessToken ∧
         now + tokenBufferTime < t.expiryDate) ∧
    (∀ (refreshExchange : Str → Except Str (Str × Int))
       (cfg : ServiceAccountConfig) (t : CachedTokenData) (now : Int),
       cfg ≠ .missing →
       t.expiryDate - now ≤ tokenBufferTime →
       initAuth refreshExchange cfg (some t) now =
         initAuthFallThrough refreshExchange cfg
           (if now < t.expiryDate then some t else none) now) := by
  constructor
  · intro refreshExchange cfg cache now tok cache2 hok
    unfold initAuth at hok
    cases cfg with
    | missing => cases hok
    | malformed =>
      cases cache with
      | none =>
        simp only [getCachedToken] at hok
        exact absurd rfl
          (initAuthFallThrough_not_cached _ _ _ _ _ _ _ hok)
      | some t =>
        simp only [getCachedToken] at hok
        by_cases hlt : now < t.expiryDate
        · simp only [hlt, if_true] at hok
          by_cases hbuf : tokenBufferTime < t.expiryDate - now
          · simp only [hbuf, if_true] at hok
            simp only [Except.ok.injEq, Prod.mk.injEq] at hok
            exact ⟨t, rfl, hok.1.symm, by omega⟩
          · simp only [hbuf, if_false] at hok
            exact absurd rfl
              (initAuthFallThrough_not_cached _ _ _ _ _ _ _ hok)
        · simp only [hlt, if_false] at hok
          exact absurd rfl
            (initAuthFallThrough_not_cached _ _ _ _ _ _ _ hok)
    | valid creds =>
      cases cache with
      | none =>
        simp only [getCachedToken] at hok
        exact absurd rfl
          (initAuthFallThrough_not_cached _ _ _ _ _ _ _ hok)
      | some t =>
        simp only [getCachedToken] at hok
        by_cases hlt : now < t.expiryDate
        · simp only [hlt, if_true] at hok
          by_cases hbuf : tokenBufferTime < t.expiryDate - now
          · simp only [hbuf, if_true] at hok
            simp only [Except.ok.injEq, Prod.mk.injEq] at hok
            exact ⟨t, rfl, hok.1.symm, by omega⟩
          · simp only [hbuf, if_false] at hok
            exact absurd rfl
              (initAuthFallThrough_not_cached _ _ _ _ _ _ _ hok)
        · simp only [hlt, if_false] at hok
          exact absurd rfl
            (initAuthFallThrough_not_cached _ _ _ _ _ _ _ hok)
  · intro refreshExchange cfg t now hcfg hbuf
    unfold initAuth
    cases cfg with
    | missing => exact absurd rfl hcfg
    | malformed =>
      simp only [getCachedToken]
      by_cases hlt : now < t.expiryDate
      · simp only [hlt, if_true]
        have : ¬ tokenBufferTime < t.expiryDate - now := by omega
        simp only [this, if_false]
      · simp only [hlt, if_false]
    | valid creds =>
      simp only [getCachedToken]
      by_cases hlt : now < t.expiryDate
      · simp only [hlt, if_true]
        have : ¬ tokenBufferTime < t.expiryDate - now := by omega
        simp only [this, if_false]
      · simp only [hlt, if_false]

/-- Witness for C4 at a concrete cache entry far from expiry (note the
cached branch fires even before the bundle is unmarshalled, so a
`malformed` configuration still serves from cache). -/
theorem c4_witness :
    ∃ t, (some (⟨"tok".toList, 1000, 0⟩ : CachedTokenData)) = some t ∧
      "tok".toList = t.accessToken ∧
      (0 : Int) + tokenBufferTime < t.expiryDate :=
  c4_cached_only_outside_buffer_window.1 (fun _ => .error [])
    .malformed (some ⟨"tok".toList, 1000, 0⟩) 0 "tok".toList
    (some ⟨"tok".toList, 1000, 0⟩) (by rfl)

/-! ## Claim C5 -/

/-- C5: the upstream streaming invoker retries at most once.  Every attempt
re-sends the identical request; a non-401 first response means a single
attempt; a first 401 clears the token cache (the re-initialisation runs on
an empty cache) and retries exactly once with the freshly brokered token;
a 401 on the retried attempt is surfaced as a status error with no third
attempt — the attempt list always has length at most 2. -/
theorem c5_retry_exactly_once {Req : Type} (send : Req → Str → Nat)
    (refreshExchange : Str → Except Str (Str × Int))
    (cfg : ServiceAccountConfig) (now : Int) (token : Str) (req : Req) :
    (performStreamRequestWithRetry send refreshExchange cfg now token
      req).1.length ≤ 2 ∧
    (∀ a ∈ (performStreamRequestWithRetry send refreshExchange cfg now token
      req).1, a.1 = req) ∧
    (send req token ≠ 401 →
      (performStreamRequestWithRetry send refreshExchange cfg now token
        req).1 = [(req, token)]) ∧
    (send req token = 401 →
      ∀ (t2 : Str) (c2 : Option CachedTokenData) (s2 : TokenSource),
        initAuth refreshExchange cfg none now = .ok (t2, c2, s2) →
        (performStreamRequestWithRetry send refreshExchange cfg now token
          req).1 = [(req, token), (req, t2)] ∧
        (send req t2 = 401 →
          (performStreamRequestWithRetry send refreshExchange cfg now token
            req).2 = .error (.httpStatusError 401))) := by
  unfold performStreamRequestWithRetry
  by_cases h401 : send req token = 401
  · simp only [h401, if_true]
    cases hinit : initAuth refreshExchange cfg none now with
    | error e =>
      refine ⟨by simp, by simp, fun hne => absurd rfl hne, ?_⟩
      intro _ t2 c2 s2 hok
      cases hok
    | ok triple =>
      obtain ⟨t2, c2, s2⟩ := triple
      refine ⟨by simp, by simp, fun hne => absurd rfl hne, ?_⟩
      intro _ t2' c2' s2' hok
      simp only [Except.ok.injEq, Prod.mk.injEq] at hok
      obtain ⟨ht, _, _⟩ := hok
      subst ht
      refine ⟨by simp, ?_⟩
      intro h401b
      simp [performStreamAttemptRetry, h401b]
  · simp [h401]

/-- An always-401 upstream for the C5 witness. -/
def c5Send : Unit → Str → Nat := fun _ _ => 401

/-- A configuration whose embedded bundle is still valid, so the retry
re-brokers token `t1`. -/
def c5Cfg : ServiceAccountConfig :=
  .valid ⟨"t1".toList, "r".toList, 1000000000⟩

/-- Witness for C5: with an upstream that always answers 401, the invoker
makes exactly the two attempts (original token, then the re-brokered one)
and surfaces the retried 401 as an error. -/
theorem c5_witness :
    (performStreamRequestWithRetry c5Send (fun _ => .error "no".toList)
      c5Cfg 0 "t0".toList ()).1 = [((), "t0".toList), ((), "t1".toList)] ∧
    (performStreamRequestWithRetry c5Send (fun _ => .error "no".toList)
      c5Cfg 0 "t0".toList ()).2 = .error (.httpStatusError 401) := by
  have h := (c5_retry_exactly_once c5Send (fun _ => .error "no".toList)
    c5Cfg 0 "t0".toList ()).2.2.2 (by decide) "t1".toList
    (some ⟨"t1".toList, 1000000, 0⟩) .original (by rfl)
  exact ⟨h.1, h.2 (by decide)⟩

/-! ## Claim C6 -/

/-- The system text one message contributes when it overwrites the running
prompt: string content directly, array content as the space-join of its
`text` sub-parts; `none` for non-system messages and for system messages
with other content (which leave the prompt untouched). -/
def sysTextOf (m : ChatMessage) : Option Str :=
  if m.role = "system".toList then
    match m.content with
    | .str s => some s
    | .arr items =>
      some (joinWith " ".toList (items.filterMap fun it =>
        match it with
        | .text s => some s
        | _ => none))
    | .otherVal _ => none
  else none

theorem filterMap_sysTextOf_cons_some (m : ChatMessage)
    (ms : List ChatMessage) (s : Str) (h : sysTextOf m = some s) :
    List.filterMap sysTextOf (m :: ms) = s :: List.filterMap sysTextOf ms := by
  simp [List.filterMap_cons, h]

theorem filterMap_sysTextOf_cons_none (m : ChatMessage)
    (ms : List ChatMessage) (h : sysTextOf m = none) :
    List.filterMap sysTextOf (m :: ms) = List.filterMap sysTextOf ms := by
  simp [List.filterMap_cons, h]

theorem filter_nonSystem_cons_system (m : ChatMessage)
    (ms : List ChatMessage) (h : m.role = "system".toList) :
    List.filter (fun x => ¬ x.role = "system".toList) (m :: ms) =
      List.filter (fun x => ¬ x.role = "system".toList) ms := by
  simp [List.filter_cons, h]

theorem filter_nonSystem_cons_other (m : ChatMessage)
    (ms : List ChatMessage) (h : ¬ m.role = "system".toList) :
    List.filter (fun x => ¬ x.role = "system".toList) (m :: ms) =
      m :: List.filter (fun x => ¬ x.role = "system".toList) ms := by
  have hd : (decide (¬ m.role = "system".toList)) = true := by
    simpa using h
  rw [List.filter_cons, if_pos hd]

theorem extractSystemPromptAux_spec (ms : List ChatMessage) :
    ∀ (prompt : Str),
      extractSystemPromptAux prompt ms =
        (((ms.filterMap sysTextOf).getLast?).getD prompt,
         ms.filter (fun m => ¬ m.role = "system".toList)) := by
  induction ms with
  | nil =>
    intro prompt
    rfl
  | cons m ms ih =>
    intro prompt
    rw [extractSystemPromptAux]
    by_cases hrole : m.role = "system".toList
    · rw [if_pos hrole]
      cases hc : m.content with
      | str s =>
        dsimp only []
        have hsys : sysTextOf m = some s := by simp [sysTextOf, hrole, hc]
        rw [ih s, filterMap_sysTextOf_cons_some m ms s hsys, getLastD_cons,
          filter_nonSystem_cons_system m ms hrole]
      | arr items =>
        dsimp only []
        have hsys : sysTextOf m = some (joinWith " ".toList
            (items.filterMap fun it =>
              match it with
              | .text s => some s
              | _ => none)) := by
          simp [sysTextOf, hrole, hc]
        rw [ih _, filterMap_sysTextOf_cons_some m ms _ hsys, getLastD_cons,
          filter_nonSystem_cons_system m ms hrole]
      | otherVal r =>
        dsimp only []
        have hsys : sysTextOf m = none := by simp [sysTextOf, hrole, hc]
        rw [ih prompt, filterMap_sysTextOf_cons_none m ms hsys,
          filter_nonSystem_cons_system m ms hrole]
    · rw [if_neg hrole]
      have hsys : sysTextOf m = none := by
        rw [sysTextOf, if_neg hrole]
      rw [ih prompt, filterMap_sysTextOf_cons_none m ms hsys,
        filter_nonSystem_cons_other m ms hrole]

/-- Two system messages followed by a user turn. -/
def c6Messages : List ChatMessage :=
  [⟨"system".toList, .str "A".toList⟩,
   ⟨"system".toList, .str "B".toList⟩,
   ⟨"user".toList, .str "hi".toList⟩]

/-- C6 counterexample: with two system messages (`A` then `B`), the
produced system string is just `B` — each system message overwrites the
running prompt instead of being concatenated, so the text of the first
system message is absent from the result, contradicting the claim that
the system string contains the text of both. -/
theorem c6_counterexample :
    extractSystemPrompt c6Messages =
      ("B".toList, [⟨"user".toList, .str "hi".toList⟩]) ∧
    'A' ∉ (extractSystemPrompt c6Messages).1 := by
  constructor
  · rfl
  · decide

/-- C6 (amended): the adapter does not concatenate across system messages —
each system message with string or array-typed content (array content
joined over its `text` sub-parts with a space) overwrites the running
system string, so the result is the contribution of the *last* such
system message (empty when there is none); all system messages are removed
from the remaining list, and when the final system string is non-empty
`StreamContent` prepends it as one synthetic leading `user` turn before
all converted messages. -/
theorem c6_last_system_message_wins :
    (∀ (ms : List ChatMessage),
      extractSystemPrompt ms =
        (((ms.filterMap sysTextOf).getLast?).getD [],
         ms.filter (fun m => ¬ m.role = "system".toList))) ∧
    (∀ (resolveImage : Str → Except Str UpPart) (ms : List ChatMessage)
       (conv : List GeminiFormattedMessage),
      convertMessagesToGeminiFormat resolveImage
          (extractSystemPrompt ms).2 = .ok conv →
      buildContents resolveImage ms =
        .ok (if (extractSystemPrompt ms).1 = [] then conv
             else systemTurn (extractSystemPrompt ms).1 :: conv)) := by
  constructor
  · intro ms
    exact extractSystemPromptAux_spec ms []
  · intro resolveImage ms conv hconv
    unfold buildContents
    dsimp only []
    rw [hconv]
    by_cases hempty : (extractSystemPrompt ms).1 = []
    · simp [hempty]
    · simp [hempty]

/-- Witness for the amended C6 theorem at the two-system-message input. -/
theorem c6_witness :
    extractSystemPrompt c6Messages =
      (((c6Messages.filterMap sysTextOf).getLast?).getD [],
       c6Messages.filter (fun m => ¬ m.role = "system".toList)) ∧
    buildContents (fun _ => .error []) c6Messages =
      .ok (if (extractSystemPrompt c6Messages).1 = [] then
             [⟨"user".toList, [.textPart "hi".toList]⟩]
           else systemTurn (extractSystemPrompt c6Messages).1 ::
             [⟨"user".toList, [.textPart "hi".toList]⟩]) :=
  ⟨c6_last_system_message_wins.1 c6Messages,
   c6_last_system_message_wins.2 (fun _ => .error []) c6Messages
     [⟨"user".toList, [.textPart "hi".toList]⟩] (by rfl)⟩

/-! ## Claim C7 -/

/-- C7 counterexample: a message with role `tool` (any role other than
`assistant`) is converted with upstream role `tool`, passed through
unchanged — not mapped to `user` as the claim states. -/
theorem c7_counterexample :
    convertMessageToGeminiFormat (fun _ => .error [])
        ⟨"tool".toList, .str "hi".toList⟩ =
      .ok ⟨"tool".toList, [.textPart "hi".toList]⟩ ∧
    "tool".toList ≠ "user".toList := by
  constructor
  · rfl
  · decide

/-- C7 (amended): the adapter maps role `assistant` to the upstream role
`model`, and every other role passes through unchanged (so `user` stays
`user`, and a role like `tool` stays `tool` rather than becoming
`user`). -/
theorem c7_role_mapping (resolveImage : Str → Except Str UpPart)
    (m : ChatMessage) (g : GeminiFormattedMessage)
    (h : convertMessageToGeminiFormat resolveImage m = .ok g) :
    g.role = if m.role = "assistant".toList then "model".toList
             else m.role := by
  unfold convertMessageToGeminiFormat at h
  cases hc : m.content with
  | str s =>
    rw [hc] at h
    simp only [Except.ok.injEq] at h
    rw [← h]
  | arr items =>
    rw [hc] at h
    dsimp only [] at h
    cases hconv : convertItems resolveImage items with
    | error e => rw [hconv] at h; cases h
    | ok parts =>
      rw [hconv] at h
      simp only [Except.ok.injEq] at h
      rw [← h]
  | otherVal r =>
    rw [hc] at h
    simp only [Except.ok.injEq] at h
    rw [← h]

/-- Witness for the amended C7 theorem at the `tool` message. -/
theorem c7_witness :
    (⟨"tool".toList, [.textPart "hi".toList]⟩ :
        GeminiFormattedMessage).role =
      if ("tool".toList : Str) = "assistant".toList then "model".toList
      else "tool".toList :=
  c7_role_mapping (fun _ => .error []) ⟨"tool".toList, .str "hi".toList⟩
    ⟨"tool".toList, [.textPart "hi".toList]⟩ (by rfl)

/-! ## Claim C8 -/

theorem transformChunk_ne_roleFrame (c : StreamChunk) :
    transformChunk c ≠ .roleFrame := by
  cases c <;> simp [transformChunk]

theorem count_roleFrame_map_transform (l : List StreamChunk) :
    (l.map transformChunk).count OutFrame.roleFrame = 0 := by
  induction l with
  | nil => rfl
  | cons c cs ih =>
    simp [List.count_cons, ih, transformChunk_ne_roleFrame c]

theorem writeAll_started (cs : List StreamChunk) :
    writeAll true cs = cs.map transformChunk := by
  induction cs with
  | nil => rfl
  | cons c cs ih =>
    simp [writeAll, writeChunkM, ih]

/-- C8 counterexample: a session whose first chunk is a `ReasoningText`
(reasoning) event writes the reasoning delta first with no preceding
role-announcement frame — the role frame only appears later, before the
first `FinalText` chunk — contradicting the claim that the first
`FinalText`/`ReasoningText` event is preceded by the role chunk. -/
theorem c8_counterexample :
    writeSession [.reasoning "r".toList, .text "t".toList] =
      [.reasoningDelta "r".toList, .roleFrame, .contentDelta "t".toList,
       .doneFrame] ∧
    (writeSession [.reasoning "r".toList, .text "t".toList]).head? =
      some (.reasoningDelta "r".toList) := by
  constructor <;> rfl

/-- C8 (amended): only a chunk of type `text` (`FinalText`) triggers the
one-time role-announcement frame: the writer forwards every chunk before
the first `text` chunk without a role frame, then emits exactly one role
frame immediately before the first `text` chunk's delta; a session with no
`text` chunk never emits a role frame, so the role frame count of a
session is 1 when a `text` chunk exists and 0 otherwise. -/
theorem c8_role_frame_only_before_first_text :
    (∀ (chunks : List StreamChunk),
      writeAll false chunks =
        (chunks.takeWhile (fun c => !isTextChunk c)).map transformChunk ++
        (match chunks.dropWhile (fun c => !isTextChunk c) with
         | [] => []
         | rest => .roleFrame :: rest.map transformChunk)) ∧
    (∀ (chunks : List StreamChunk),
      (writeSession chunks).count OutFrame.roleFrame =
        if chunks.any isTextChunk then 1 else 0) := by
  constructor
  · intro chunks
    induction chunks with
    | nil => rfl
    | cons c cs ih =>
      by_cases ht : isTextChunk c = true
      · simp [writeAll, writeChunkM, ht, writeAll_started,
          List.takeWhile_cons, List.dropWhile_cons]
      · have ht' : isTextChunk c = false := by
          revert ht; cases isTextChunk c <;> simp
        simp [writeAll, writeChunkM, ht', List.takeWhile_cons,
          List.dropWhile_cons, ih]
  · intro chunks
    induction chunks with
    | nil => rfl
    | cons c cs ih =>
      by_cases ht : isTextChunk c = true
      · simp [writeSession, writeAll, writeChunkM, ht, writeAll_started,
          List.count_cons, List.count_append,
          count_roleFrame_map_transform, transformChunk_ne_roleFrame c]
      · have ht' : isTextChunk c = false := by
          revert ht; cases isTextChunk c <;> simp
        simp only [writeSession, writeAll, writeChunkM, ht', Bool.false_and,
          Bool.not_false, Bool.and_true, if_false] at ih ⊢
        simp [List.count_cons, transformChunk_ne_roleFrame c, ht', ih]

/-! ## Claim C9 -/

/-- The third reasoning template (no `{requestPreview}` placeholder), as
UTF-8 bytes: 💭 followed by ASCII text. -/
def c9Template : List Nat :=
  [0xF0, 0x9F, 0x92, 0xAD] ++
    asciiBytes " I need to consider the context and provide a comprehensive response. "

/-- C9 counterexample: the synthetic reasoning generator's splitter cuts
the substituted third template every 15 bytes regardless of break
characters: the word `context` is split as `co` / `ntext` between the
second and third chunk, although the 15-byte chunk window
`consider the co` holds a space at index 12, inside the tail of the window
(past `15*7/10 = 10`) — so a suitable break point existed and the claim's
"never splitting mid-word" is violated. -/
theorem c9_counterexample :
    reasoningMessages.get? 2 = some c9Template ∧
    (substitutedTemplates (asciiBytes "Hello")).get? 2 = some c9Template ∧
    splitIntoChunks c9Template thinkingContentChunkSize =
      [[0xF0, 0x9F, 0x92, 0xAD] ++ asciiBytes " I need to ",
       asciiBytes "consider the co",
       asciiBytes "ntext and provi",
       asciiBytes "de a comprehens",
       asciiBytes "ive response. "] ∧
    (asciiBytes "consider the co").get? 12 = some 32 ∧
    thinkingContentChunkSize * 7 / 10 < 12 ∧
    (32 ∈ goodBreakBytes) = true ∧
    (asciiBytes "consider the co").getLast? = some 111 ∧
    (asciiBytes "ntext and provi").head? = some 110 ∧
    (111 ∈ goodBreakBytes) = false ∧
    (110 ∈ goodBreakBytes) = false := by
  refine ⟨by rfl, by rfl, by rfl, by rfl, by decide, by decide, by rfl,
    by rfl, by decide, by decide⟩

theorem splitIntoChunksAux_spec (chunkSize : Nat) (h : 0 < chunkSize) :
    ∀ (fuel : Nat) (cs : List Nat), cs.length ≤ fuel →
      (splitIntoChunksAux chunkSize fuel cs).flatten = cs ∧
      ∀ c ∈ splitIntoChunksAux chunkSize fuel cs, c.length ≤ chunkSize := by
  intro fuel
  induction fuel with
  | zero =>
    intro cs hlen
    have : cs = [] := List.eq_nil_of_length_eq_zero (Nat.le_zero.mp hlen)
    subst this
    exact ⟨rfl, by simp [splitIntoChunksAux]⟩
  | succ fuel ih =>
    intro cs hlen
    rw [splitIntoChunksAux]
    by_cases hle : cs.length ≤ chunkSize
    · rw [if_pos hle]
      exact ⟨by simp, by simp [hle]⟩
    · rw [if_neg hle]
      have hdrop : (cs.drop chunkSize).length ≤ fuel := by
        rw [List.length_drop]
        omega
      obtain ⟨ihflat, ihlen⟩ := ih (cs.drop chunkSize) hdrop
      constructor
      · simp [ihflat]
      · intro c hc
        rcases List.mem_cons.mp hc with hc | hc
        · subst hc
          simp [List.length_take]
        · exact ihlen c hc

/-- C9 (amended): the synthetic reasoning generator splits each
substituted template into fixed-size byte chunks — `splitIntoChunks` cuts
every `chunkSize` bytes with no preference for whitespace or punctuation —
so the chunks concatenate back to the input and each is at most
`chunkSize` bytes, but mid-word cuts are taken whenever a word straddles a
chunk boundary. -/
theorem c9_fixed_size_chunks (text : List Nat) (chunkSize : Nat)
    (h : 0 < chunkSize) :
    (splitIntoChunks text chunkSize).flatten = text ∧
    ∀ c ∈ splitIntoChunks text chunkSize, c.length ≤ chunkSize :=
  splitIntoChunksAux_spec chunkSize h text.length text le_rfl

/-- Witness for the amended C9 theorem on the third template at the
configured chunk size. -/
theorem c9_witness :
    (splitIntoChunks c9Template thinkingContentChunkSize).flatten =
      c9Template ∧
    ∀ c ∈ splitIntoChunks c9Template thinkingContentChunkSize,
      c.length ≤ thinkingContentChunkSize :=
  c9_fixed_size_chunks c9Template thinkingContentChunkSize (by decide)

/-! ## Claim C10 -/

/-- C10: `TextChunker.Split` is not total.  On a 15-byte input with chunk
size 10 the first loop iteration takes the look-ahead window
`remaining[:chunkEnd+10] = remaining[:20]` on a 15-byte string, which
panics in Go (slice bounds out of range); the model returns `none`
exactly at that panic.  The claim (totality, and chunks concatenating to
the input, for every text and positive chunk size) is right about the
intent — the code is a slip. -/
theorem c10_split_panics :
    (asciiBytes "aaaaaaaaaabbbbb").length = 15 ∧
    tcSplit (asciiBytes "aaaaaaaaaabbbbb") 10 = none := by
  exact ⟨by rfl, by rfl⟩
